import Mathlib

/-!
# Verification of the chapter/exercise boundary detector

Shallow embedding of `tools/split_pdf_chapters.py` and `tools/extract_exercises.py`:
chapter start detection (outline-based and scan-based), chapter range construction,
two-tier exercise boundary detection, and the extraction driver.

Modelling conventions:
* A page's extracted text is represented by its list of lines, as produced by
  Python's `str.splitlines()` (`PageText := List String`).
* Python page indices and page arithmetic use unbounded `int`, embedded as `Int`
  (`p1 - 1` on a 1-based outline page can be negative).
* Chapter numbers come from decimal digit groups, embedded as `Nat`.
* The regular expressions are embedded as explicit character-list matchers over
  the ASCII reading of the character classes (`\s`, `\d`, `\w`, `[A-Za-z]`).
* `doc.load_page(i).get_text("text")` is embedded as a total lookup returning
  empty text out of bounds; the theorems keep the scanned indices inside the
  document wherever the source would have performed the access.
-/

namespace Apostal

/-- Python's `\s` class (`str.strip` whitespace), ASCII reading. -/
def pyIsSpace (c : Char) : Bool :=
  c == ' ' || c == '\t' || c == '\n' || c == '\r' || c == '\x0b' || c == '\x0c'

/-- Python's `\d` class. -/
def isDigitChar (c : Char) : Bool :=
  '0' ≤ c && c ≤ '9'

/-- Python's `\w` class (`[A-Za-z0-9_]`, ASCII reading), used for `\b` boundaries. -/
def isWordChar (c : Char) : Bool :=
  c.isAlpha || isDigitChar c || c == '_'

/-- `[A-Za-z]`. -/
def isAsciiLetter (c : Char) : Bool :=
  ('A' ≤ c && c ≤ 'Z') || ('a' ≤ c && c ≤ 'z')

/-- Drop a leading run of characters satisfying `p` from both ends. -/
def stripBy (p : Char → Bool) (s : List Char) : List Char :=
  ((s.dropWhile p).reverse.dropWhile p).reverse

/-- Python's `str.strip()` on the characters of a string. -/
def stripChars (s : List Char) : List Char :=
  stripBy pyIsSpace s

/-- Python's `str.strip()`. -/
def pyStrip (s : String) : String :=
  String.mk (stripChars s.data)

/-- Python's `str.lower()` (ASCII reading). -/
def pyLower (s : String) : String :=
  String.mk (s.data.map Char.toLower)

/-- Numeric value of a digit group, as `int(m.group(1))` would produce. -/
def digitsVal (ds : List Char) : Nat :=
  ds.foldl (fun a c => 10 * a + (c.toNat - '0'.toNat)) 0

/-- A `\b` boundary holds after a digit group when the rest of the string starts
with a non-word character (or is empty). -/
def wordBoundary (s : List Char) : Bool :=
  match s with
  | [] => true
  | c :: _ => !(isWordChar c)

/-- Strip a literal (case-sensitive); `some rest` on success. -/
def stripLit : List Char → List Char → Option (List Char)
  | [], s => some s
  | _ :: _, [] => none
  | p :: ps, c :: cs => if c == p then stripLit ps cs else none

/-- Strip a literal case-insensitively (the literal is given in lower case). -/
def stripLitCI : List Char → List Char → Option (List Char)
  | [], s => some s
  | _ :: _, [] => none
  | p :: ps, c :: cs => if c.toLower == p then stripLitCI ps cs else none

/-- `re.match` for `^\s*Chapter\s+(\d+)\b` with `re.IGNORECASE`, returning the
numeric value of group 1. -/
def matchChapterCI (s : List Char) : Option Nat :=
  match stripLitCI "chapter".data (s.dropWhile pyIsSpace) with
  | none => none
  | some r1 =>
    match r1 with
    | [] => none
    | c :: _ =>
      if pyIsSpace c then
        let r2 := r1.dropWhile pyIsSpace
        let ds := r2.takeWhile isDigitChar
        if ds.isEmpty then none
        else if wordBoundary (r2.dropWhile isDigitChar) then some (digitsVal ds)
        else none
      else none

/-- `re.match` for `^\s*CHAPTER\s+(\d+)\b` (case-sensitive). -/
def matchChapterUC (s : List Char) : Option Nat :=
  match stripLit "CHAPTER".data (s.dropWhile pyIsSpace) with
  | none => none
  | some r1 =>
    match r1 with
    | [] => none
    | c :: _ =>
      if pyIsSpace c then
        let r2 := r1.dropWhile pyIsSpace
        let ds := r2.takeWhile isDigitChar
        if ds.isEmpty then none
        else if wordBoundary (r2.dropWhile isDigitChar) then some (digitsVal ds)
        else none
      else none

/-- `re.match` for `^\s*(\d+)\s+[A-Z][A-Za-z].*` (numeric first-level heading,
e.g. `1 Probability Theory`). -/
def matchNumTitle (s : List Char) : Option Nat :=
  let r0 := s.dropWhile pyIsSpace
  let ds := r0.takeWhile isDigitChar
  let r1 := r0.dropWhile isDigitChar
  if ds.isEmpty then none
  else
    match r1 with
    | [] => none
    | c :: _ =>
      if pyIsSpace c then
        match r1.dropWhile pyIsSpace with
        | [] => none
        | c1 :: rest1 =>
          if 'A' ≤ c1 && c1 ≤ 'Z' then
            match rest1 with
            | [] => none
            | c2 :: _ => if isAsciiLetter c2 then some (digitsVal ds) else none
          else none
      else none

/-- `CHAPTER_PATTERNS` / `CHAPTER_HEADING_PATTERNS` applied in order, first match
wins (the digit group always converts with `int`, so a match yields a number). -/
def parseChapterNum (s : List Char) : Option Nat :=
  match matchChapterCI s with
  | some n => some n
  | none =>
    match matchChapterUC s with
    | some n => some n
    | none => matchNumTitle s

/-- A page's extracted text, as the lines `text.splitlines()` yields. -/
abbrev PageText := List String

/-- One outline (TOC) entry `[level, title, page1based]`. -/
structure TocEntry where
  level : Nat
  title : String
  page1 : Int
  deriving DecidableEq, Repr

/-- A detected chapter start `(chapter_number, start_page_index, title)`. -/
structure ChapterStart where
  ch : Nat
  page : Int
  title : String
  deriving DecidableEq, Repr

/-- A chapter range `(chapter_number, start_page_index, end_page_index, title)`. -/
structure ChRange where
  ch : Nat
  sp : Int
  ep : Int
  title : String
  deriving DecidableEq, Repr

/-- Comparison key `lambda x: x[1]` (sort chapter starts by page index). -/
def pageLE (a b : ChapterStart) : Prop := a.page ≤ b.page

instance : DecidableRel pageLE := fun a b => Int.decLe a.page b.page

instance : IsTotal ChapterStart pageLE := ⟨fun a b => Int.le_total a.page b.page⟩

instance : IsTrans ChapterStart pageLE := ⟨fun _ _ _ h h' => Int.le_trans h h'⟩

/-- Comparison key `lambda x: (x[0], x[1])` (sort by chapter number, then page). -/
def chLex (a b : ChapterStart) : Prop :=
  a.ch < b.ch ∨ (a.ch = b.ch ∧ a.page ≤ b.page)

instance : DecidableRel chLex := fun _ _ => inferInstanceAs (Decidable (_ ∨ _))

/-- The chapter number parsed from an outline entry's stripped title. -/
def parsedNum (e : TocEntry) : Option Nat :=
  parseChapterNum (pyStrip e.title).data

/-- Loop body of `get_toc_chapter_starts` / `detect_chapters_by_toc`: walk the
outline, keep level-1 entries, parse a chapter number from the stripped title
(falling back to `len(chapters) + 1`), and skip numbers already seen. -/
def tocAux : List TocEntry → List ChapterStart → List Nat → List ChapterStart
  | [], chapters, _ => chapters
  | e :: rest, chapters, seen =>
    if e.level ≠ 1 then tocAux rest chapters seen
    else
      let chNum :=
        match parsedNum e with
        | some n => n
        | none => chapters.length + 1
      if chNum ∈ seen then tocAux rest chapters seen
      else tocAux rest (chapters ++ [⟨chNum, e.page1 - 1, pyStrip e.title⟩]) (chNum :: seen)

/-- `extract_exercises.get_toc_chapter_starts`: outline-based chapter starts,
sorted by start page. -/
def get_toc_chapter_starts (toc : List TocEntry) : List ChapterStart :=
  if toc.isEmpty then []
  else List.insertionSort pageLE (tocAux toc [] [])

/-- `split_pdf_chapters.detect_chapters_by_toc`: same loop and sort (the source
bodies are line-for-line identical up to the empty-outline early return, which
is behaviourally irrelevant). -/
def detect_chapters_by_toc (toc : List TocEntry) : List ChapterStart :=
  List.insertionSort pageLE (tocAux toc [] [])

/-- First line of a page (already stripped) matched by a chapter pattern: the
scan loops break out of both the pattern loop and the line loop at the first
matching line. -/
def firstChapterLine : List String → Option (Nat × String)
  | [] => none
  | ln :: rest =>
    match parseChapterNum ln.data with
    | some n => some (n, ln)
    | none => firstChapterLine rest

/-- Page loop shared by the two scan-based detectors: `acc` is the insertion-order
association of chapter number to `(ch, page_index, line)` (the Python dict), and
`topN` is how many leading lines are inspected (20 resp. 25). -/
def scanPagesAux (topN : Nat) : List PageText → Int → List ChapterStart → List ChapterStart
  | [], _, acc => acc
  | pg :: rest, i, acc =>
    let lines := (pg.take topN).map pyStrip
    let acc' :=
      match firstChapterLine lines with
      | none => acc
      | some (ch, ln) => if acc.any (fun s => s.ch == ch) then acc else acc ++ [⟨ch, i, ln⟩]
    scanPagesAux topN rest (i + 1) acc'

/-- `split_pdf_chapters.detect_chapters_by_scanning`: top 20 lines per page,
result sorted by `(chapter number, page)`. -/
def detect_chapters_by_scanning (pages : List PageText) : List ChapterStart :=
  List.insertionSort chLex (scanPagesAux 20 pages 0 [])

/-- `extract_exercises.scan_for_chapter_starts`: top 25 lines per page, result
sorted by `(chapter number, page)`. -/
def scan_for_chapter_starts (pages : List PageText) : List ChapterStart :=
  let starts := scanPagesAux 25 pages 0 []
  if starts.isEmpty then [] else List.insertionSort chLex starts

/-- `split_pdf_chapters.build_ranges`: each entry's end page is one before the
next entry's start page (or `total_pages - 1` for the last entry); entries with
`end < start` are discarded.  No sorting is performed here. -/
def build_ranges : List ChapterStart → Int → List ChRange
  | [], _ => []
  | [s], total =>
    if s.page ≤ total - 1 then [ChRange.mk s.ch s.page (total - 1) s.title] else []
  | s :: nxt :: rest, total =>
    (if s.page ≤ nxt.page - 1 then [ChRange.mk s.ch s.page (nxt.page - 1) s.title] else [])
      ++ build_ranges (nxt :: rest) total

/-- `extract_exercises.build_chapter_ranges`: empty guard, then sort the starts
by page and run the same end-page loop as `build_ranges` (the two loop bodies
are identical in the source). -/
def build_chapter_ranges (starts : List ChapterStart) (total : Int) : List ChRange :=
  if starts.isEmpty then []
  else build_ranges (List.insertionSort pageLE starts) total

/-- `DEFAULT_KEYWORDS` of `extract_exercises.py`. -/
def DEFAULT_KEYWORDS : List String :=
  ["Exercises", "PROBLEMS", "Problems", "Review Exercises", "Review Questions",
   "Exercises and Problems"]

/-- `extract_exercises.page_has_heading`: does one of the first `top_lines`
stripped lines start (case-insensitively) with one of the keywords? -/
def page_has_heading (text : PageText) (keywords : List String) (top_lines : Nat) : Bool :=
  ((text.take top_lines).map pyStrip).any fun ln =>
    keywords.any fun kw => (pyLower kw).data.isPrefixOf (pyLower ln).data

/-- `doc.load_page(i).get_text("text")`, embedded as a total lookup: out of
bounds yields empty text (no lines). -/
def loadPage (pages : List PageText) (i : Int) : PageText :=
  if 0 ≤ i then pages.getD i.toNat [] else []

/-- `re.match` for `rf'^\s*{ch_num}\.\d+\b'` against one (stripped) line. -/
def matchChNum (ch : Nat) (s : List Char) : Bool :=
  match stripLit (Nat.repr ch).data (s.dropWhile pyIsSpace) with
  | none => false
  | some r1 =>
    match r1 with
    | '.' :: r2 =>
      let ds := r2.takeWhile isDigitChar
      !ds.isEmpty && wordBoundary (r2.dropWhile isDigitChar)
    | _ => false

/-- `sum(1 for ln in text.splitlines() if rx_num.match(ln.strip()))`. -/
def countNumLines (text : PageText) (ch : Nat) : Nat :=
  text.countP fun ln => matchChNum ch (stripChars ln.data)

/-- Tier 1 of `detect_exercises_start`: forward scan of `fuel` pages starting at
page `i`, looking for a heading keyword near the top of the page. -/
def findHeadingFwd (pages : List PageText) (keywords : List String) :
    Nat → Int → Option Int
  | 0, _ => none
  | fuel + 1, i =>
    if page_has_heading (loadPage pages i) keywords 25 then some i
    else findHeadingFwd pages keywords fuel (i + 1)

/-- Tier 2 of `detect_exercises_start`: backward scan of `fuel` pages starting
at page `i`, looking for at least `minCount` lines matching `<ch>.<digits>`;
on a hit, prefer the immediately preceding page when it is still at or after
`start` and carries a heading keyword. -/
def findNumBwd (pages : List PageText) (ch : Nat) (minCount : Nat)
    (keywords : List String) (start : Int) : Nat → Int → Option Int
  | 0, _ => none
  | fuel + 1, i =>
    if minCount ≤ countNumLines (loadPage pages i) ch then
      if start ≤ i - 1 then
        if page_has_heading (loadPage pages (i - 1)) keywords 25 then some (i - 1)
        else some i
      else some i
    else findNumBwd pages ch minCount keywords start fuel (i - 1)

/-- `extract_exercises.detect_exercises_start`: tier 1 scans `range(start, end+1)`
forward; if it finds nothing, tier 2 scans `range(end, start-1, -1)` backward.
Both loops visit `max(0, end+1-start)` pages. -/
def detect_exercises_start (pages : List PageText) (r : ChRange)
    (keywords : List String) (minCount : Nat) : Option Int :=
  match findHeadingFwd pages keywords ((r.ep + 1 - r.sp).toNat) r.sp with
  | some i => some i
  | none => findNumBwd pages r.ch minCount keywords r.sp ((r.ep + 1 - r.sp).toNat) r.ep

/-- Variant of tier 2 with the preceding-page preference removed: always return
the qualifying page itself.  Used to state that the preference branch is
unreachable once tier 1 has found no heading in the range. -/
def findNumBwdPlain (pages : List PageText) (ch : Nat) (minCount : Nat) :
    Nat → Int → Option Int
  | 0, _ => none
  | fuel + 1, i =>
    if minCount ≤ countNumLines (loadPage pages i) ch then some i
    else findNumBwdPlain pages ch minCount fuel (i - 1)

/-- `detect_exercises_start` with the preceding-page preference branch removed. -/
def detectNoPrevVariant (pages : List PageText) (r : ChRange)
    (keywords : List String) (minCount : Nat) : Option Int :=
  match findHeadingFwd pages keywords ((r.ep + 1 - r.sp).toNat) r.sp with
  | some i => some i
  | none => findNumBwdPlain pages r.ch minCount ((r.ep + 1 - r.sp).toNat) r.ep

/-- One maximal run of characters satisfying `p` replaced by a single `rep`
(the state records whether the previous character was inside a run); this is
`re.sub(cls + '+', rep, s)` for a character class `cls`. -/
def collapseRunsAux (p : Char → Bool) (rep : Char) : List Char → Bool → List Char
  | [], _ => []
  | c :: cs, inRun =>
    if p c then
      if inRun then collapseRunsAux p rep cs true
      else rep :: collapseRunsAux p rep cs true
    else c :: collapseRunsAux p rep cs false

/-- `[A-Za-z0-9]`. -/
def isAlnumChar (c : Char) : Bool :=
  isAsciiLetter c || isDigitChar c

/-- `extract_exercises.slugify`: collapse whitespace runs, strip, collapse
non-alphanumeric runs to `-`, strip `-`, truncate to 60, default `"Exercises"`. -/
def slugify (s : String) : String :=
  let s1 := stripBy pyIsSpace (collapseRunsAux pyIsSpace ' ' s.data false)
  let s2 := stripBy (fun c => c == '-') (collapseRunsAux (fun c => !isAlnumChar c) '-' s1 false)
  let s3 := s2.take 60
  if s3.isEmpty then "Exercises" else String.mk s3

/-- The data of one emitted per-chapter exercise file: chapter number, chapter
title, detected exercise start page and chapter end page. -/
structure Out where
  ch : Nat
  title : String
  exStart : Int
  ep : Int
  deriving DecidableEq, Repr

/-- `f"{ch:02d}"`. -/
def pad2 (n : Nat) : String :=
  if n < 10 then "0" ++ Nat.repr n else Nat.repr n

/-- The output filename `f"{stem}_Chapter-{ch:02d}_{slug}_Exercises.pdf"`. -/
def outName (stem : String) (o : Out) : String :=
  stem ++ "_Chapter-" ++ pad2 o.ch ++ "_" ++ slugify o.title ++ "_Exercises.pdf"

/-- The input document: pages with extractable text, plus outline metadata. -/
structure Document where
  pages : List PageText
  toc : List TocEntry

/-- The detection configuration: `--keywords` and `--min-num-count`. -/
structure Config where
  keywords : List String
  minNumCount : Nat

/-- The per-chapter loop of `extract_exercises.main`: a chapter whose exercise
boundary is not detected is skipped (warning only); a detected boundary yields
one output record. -/
def processRanges (pages : List PageText) (keywords : List String) (minCount : Nat) :
    List ChRange → List Out
  | [] => []
  | r :: rest =>
    match detect_exercises_start pages r keywords minCount with
    | none => processRanges pages keywords minCount rest
    | some ex => ⟨r.ch, r.title, ex, r.ep⟩ :: processRanges pages keywords minCount rest

/-- Start detection of `extract_exercises.main`: prefer the outline; fall back
to scanning when it yields fewer than 2 entries. -/
def pipelineStarts (doc : Document) : List ChapterStart :=
  let s := get_toc_chapter_starts doc.toc
  if s.length < 2 then scan_for_chapter_starts doc.pages else s

/-- `extract_exercises.main` from start detection onward: exit code 2 when no
starts are detected, exit code 3 when no ranges can be built, otherwise the
list of emitted outputs. -/
def runExtract (doc : Document) (cfg : Config) : Except Nat (List Out) :=
  let starts := pipelineStarts doc
  if starts.isEmpty then Except.error 2
  else
    let ranges := build_chapter_ranges starts (doc.pages.length : Int)
    if ranges.isEmpty then Except.error 3
    else Except.ok (processRanges doc.pages cfg.keywords cfg.minNumCount ranges)

/-- A run of the detection pipeline as a relation between the input document,
the configuration and the outcome, mirroring the control flow of
`extract_exercises.main` after the document is opened. -/
inductive Run (doc : Document) (cfg : Config) : Except Nat (List Out) → Prop where
  | noStarts :
      pipelineStarts doc = [] → Run doc cfg (Except.error 2)
  | noRanges :
      pipelineStarts doc ≠ [] →
      build_chapter_ranges (pipelineStarts doc) (doc.pages.length : Int) = [] →
      Run doc cfg (Except.error 3)
  | success :
      pipelineStarts doc ≠ [] →
      build_chapter_ranges (pipelineStarts doc) (doc.pages.length : Int) ≠ [] →
      Run doc cfg (Except.ok (processRanges doc.pages cfg.keywords cfg.minNumCount
        (build_chapter_ranges (pipelineStarts doc) (doc.pages.length : Int))))

/-! ### Range construction: characterization, partition, non-emptiness -/

/-- A chapter range covers a page index. -/
def covers (r : ChRange) (p : Int) : Prop := r.sp ≤ p ∧ p ≤ r.ep

instance : ∀ (r : ChRange) (p : Int), Decidable (covers r p) :=
  fun _ _ => inferInstanceAs (Decidable (_ ∧ _))

/-- Some range in the list covers the page index. -/
def coveredBy (rs : List ChRange) (p : Int) : Prop := ∃ r ∈ rs, covers r p

instance : ∀ (rs : List ChRange) (p : Int), Decidable (coveredBy rs p) :=
  fun rs _ => List.decidableBEx _ rs

/-- Index-based formulation of §4.2 of the specification: entry `i` gets end
page `starts[i+1].page - 1` when `i+1 < len(starts)` and `total - 1` otherwise,
and is kept exactly when `end ≥ start`. -/
def buildRangesIdx (starts : List ChapterStart) (total : Int) : List ChRange :=
  (List.range starts.length).filterMap fun i =>
    (starts[i]?).bind fun s =>
      let ep : Int := ((starts[i + 1]?).map fun nxt => nxt.page - 1).getD (total - 1)
      if s.page ≤ ep then some ⟨s.ch, s.page, ep, s.title⟩ else none

theorem buildRangesIdx_cons (s : ChapterStart) (rest : List ChapterStart) (total : Int) :
    buildRangesIdx (s :: rest) total =
      (let ep : Int := ((rest[0]?).map fun nxt => nxt.page - 1).getD (total - 1)
       if s.page ≤ ep then [(⟨s.ch, s.page, ep, s.title⟩ : ChRange)] else [])
      ++ buildRangesIdx rest total := by
  unfold buildRangesIdx
  rw [List.length_cons, List.range_succ_eq_map, List.filterMap_cons, List.filterMap_map]
  have hcongr :
      List.filterMap
        ((fun i =>
          ((s :: rest)[i]?).bind fun t =>
            let ep : Int :=
              (((s :: rest)[i + 1]?).map fun nxt => nxt.page - 1).getD (total - 1)
            if t.page ≤ ep then some (⟨t.ch, t.page, ep, t.title⟩ : ChRange) else none)
          ∘ Nat.succ) (List.range rest.length)
      = List.filterMap
        (fun i =>
          (rest[i]?).bind fun t =>
            let ep : Int :=
              ((rest[i + 1]?).map fun nxt => nxt.page - 1).getD (total - 1)
            if t.page ≤ ep then some (⟨t.ch, t.page, ep, t.title⟩ : ChRange) else none)
        (List.range rest.length) := by
    refine List.filterMap_congr ?_
    intro i _
    simp only [Function.comp_apply, Nat.succ_eq_add_one, List.getElem?_cons_succ]
  rw [hcongr]
  simp only [List.getElem?_cons_zero, List.getElem?_cons_succ, Option.some_bind]
  by_cases h : s.page ≤ ((rest[0]?).map fun nxt => nxt.page - 1).getD (total - 1) <;>
    simp [h]

theorem build_ranges_eq_idx (starts : List ChapterStart) (total : Int) :
    build_ranges starts total = buildRangesIdx starts total := by
  induction starts with
  | nil => rfl
  | cons s rest ih =>
    rw [buildRangesIdx_cons, ← ih]
    cases rest with
    | nil =>
      by_cases h : s.page ≤ total - 1 <;> simp [build_ranges, h]
    | cons nxt rest' =>
      by_cases h : s.page ≤ nxt.page - 1 <;> simp [build_ranges, h]

/-- Every emitted range's start page is the page of one of the input starts. -/
theorem build_ranges_sp_mem (starts : List ChapterStart) (total : Int) (r : ChRange)
    (hr : r ∈ build_ranges starts total) : ∃ s ∈ starts, r.sp = s.page := by
  induction starts with
  | nil => simp [build_ranges] at hr
  | cons s rest ih =>
    cases rest with
    | nil =>
      by_cases hc : s.page ≤ total - 1 <;> simp [build_ranges, hc] at hr
      exact ⟨s, by simp, by simp [hr]⟩
    | cons nxt rest' =>
      simp only [build_ranges] at hr
      rcases List.mem_append.1 hr with h | h
      · by_cases hc : s.page ≤ nxt.page - 1 <;> simp [hc] at h
        exact ⟨s, by simp, by simp [h]⟩
      · obtain ⟨t, ht, hsp⟩ := ih h
        exact ⟨t, List.mem_cons_of_mem _ ht, hsp⟩

/-- Every emitted range is well-formed: `start ≤ end`. -/
theorem build_ranges_wf (starts : List ChapterStart) (total : Int) (r : ChRange)
    (hr : r ∈ build_ranges starts total) : r.sp ≤ r.ep := by
  induction starts with
  | nil => simp [build_ranges] at hr
  | cons s rest ih =>
    cases rest with
    | nil =>
      by_cases hc : s.page ≤ total - 1 <;> simp [build_ranges, hc] at hr
      simp [hr, hc]
    | cons nxt rest' =>
      simp only [build_ranges] at hr
      rcases List.mem_append.1 hr with h | h
      · by_cases hc : s.page ≤ nxt.page - 1 <;> simp [hc] at h
        simp [h, hc]
      · exact ih h

/-- For page-sorted starts, the first emitted range (if any) starts at the first
start's page. -/
theorem build_ranges_head_sp (s : ChapterStart) (rest : List ChapterStart) (total : Int)
    (hsorted : List.Chain' pageLE (s :: rest)) (r : ChRange)
    (hr : (build_ranges (s :: rest) total).head? = some r) : r.sp = s.page := by
  induction rest generalizing s with
  | nil =>
    by_cases hc : s.page ≤ total - 1 <;> simp [build_ranges, hc] at hr
    simp [← hr]
  | cons nxt rest' ih =>
    by_cases hc : s.page ≤ nxt.page - 1
    · simp [build_ranges, hc] at hr
      simp [← hr]
    · simp only [build_ranges, hc, if_neg, not_false_iff, List.nil_append] at hr
      have hchain := (List.chain'_cons'.1 hsorted).2
      have hle : pageLE s nxt := (List.chain'_cons.1 hsorted).1
      have heq : nxt.page = s.page := by
        unfold pageLE at hle; omega
      rw [← heq]
      exact ih nxt hchain hr

/-- For page-sorted starts, consecutive emitted ranges are contiguous: each
range starts one page after the previous one ends.  This packages
non-overlapping, order preservation and gaplessness. -/
theorem build_ranges_chain (starts : List ChapterStart) (total : Int)
    (hsorted : List.Chain' pageLE starts) :
    List.Chain' (fun r r' => r'.sp = r.ep + 1) (build_ranges starts total) := by
  induction starts with
  | nil => simp [build_ranges]
  | cons s rest ih =>
    cases rest with
    | nil =>
      simp only [build_ranges]
      by_cases hc : s.page ≤ total - 1 <;> simp [hc]
    | cons nxt rest' =>
      have hchain := (List.chain'_cons'.1 hsorted).2
      simp only [build_ranges]
      by_cases hc : s.page ≤ nxt.page - 1
      · simp only [hc, if_pos, List.singleton_append]
        refine List.chain'_cons'.2 ⟨?_, ih hchain⟩
        intro y hy
        have := build_ranges_head_sp nxt rest' total hchain y hy
        rw [this]
        show nxt.page = nxt.page - 1 + 1
        omega
      · simpa [hc] using ih hchain

/-- For page-sorted starts, every page from the first start's page to the last
document page is covered by some emitted range. -/
theorem build_ranges_covers (s : ChapterStart) (rest : List ChapterStart) (total : Int)
    (hsorted : List.Chain' pageLE (s :: rest)) (p : Int)
    (h1 : s.page ≤ p) (h2 : p ≤ total - 1) :
    coveredBy (build_ranges (s :: rest) total) p := by
  induction rest generalizing s with
  | nil =>
    refine ⟨⟨s.ch, s.page, total - 1, s.title⟩, ?_, h1, h2⟩
    simp only [build_ranges]
    have hc : s.page ≤ total - 1 := le_trans h1 h2
    simp [hc]
  | cons nxt rest' ih =>
    have hchain := (List.chain'_cons'.1 hsorted).2
    by_cases hp : nxt.page ≤ p
    · obtain ⟨r, hr, hcov⟩ := ih nxt hchain hp
      refine ⟨r, ?_, hcov⟩
      simp only [build_ranges]
      exact List.mem_append.2 (Or.inr hr)
    · have hc : s.page ≤ nxt.page - 1 := by omega
      refine ⟨⟨s.ch, s.page, nxt.page - 1, s.title⟩, ?_, h1, show p ≤ nxt.page - 1 by omega⟩
      simp only [build_ranges]
      simp [hc]

/-- No emitted range covers a page before all the starts. -/
theorem build_ranges_not_covers (starts : List ChapterStart) (total : Int) (p : Int)
    (hlow : ∀ s ∈ starts, p < s.page) :
    ¬ coveredBy (build_ranges starts total) p := by
  rintro ⟨r, hr, hsp, -⟩
  obtain ⟨s, hs, hrs⟩ := build_ranges_sp_mem starts total r hr
  have := hlow s hs
  omega

/-- For nonempty starts all of whose pages are at most `total - 1`, range
construction keeps the last entry, so the result is nonempty. -/
theorem build_ranges_ne_nil (starts : List ChapterStart) (total : Int)
    (hne : starts ≠ []) (hbound : ∀ s ∈ starts, s.page ≤ total - 1) :
    build_ranges starts total ≠ [] := by
  induction starts with
  | nil => exact absurd rfl hne
  | cons s rest ih =>
    cases rest with
    | nil =>
      have hc : s.page ≤ total - 1 := hbound s (List.mem_cons_self ..)
      simp [build_ranges, hc]
    | cons nxt rest' =>
      have htail : build_ranges (nxt :: rest') total ≠ [] := by
        refine ih (by simp) ?_
        intro t ht
        exact hbound t (List.mem_cons_of_mem _ ht)
      simp only [build_ranges]
      intro hcontra
      exact htail (List.append_eq_nil.1 hcontra).2

/-- For page-sorted starts the extra sort inside `build_chapter_ranges` is the
identity, so the two range builders agree. -/
theorem build_chapter_ranges_eq_sorted (starts : List ChapterStart) (total : Int)
    (hsorted : List.Chain' pageLE starts) :
    build_chapter_ranges starts total = build_ranges starts total := by
  cases starts with
  | nil => rfl
  | cons s rest =>
    have hp : List.Sorted pageLE (s :: rest) := List.chain'_iff_pairwise.mp hsorted
    simp only [build_chapter_ranges, List.isEmpty_cons, Bool.false_eq_true, if_false]
    rw [List.Sorted.insertionSort_eq hp]

/-- `build_chapter_ranges` on nonempty in-document starts is nonempty. -/
theorem build_chapter_ranges_ne_nil (starts : List ChapterStart) (total : Int)
    (hne : starts ≠ []) (hbound : ∀ s ∈ starts, s.page ≤ total - 1) :
    build_chapter_ranges starts total ≠ [] := by
  cases starts with
  | nil => exact absurd rfl hne
  | cons s rest =>
    simp only [build_chapter_ranges, List.isEmpty_cons, Bool.false_eq_true, if_false]
    apply build_ranges_ne_nil
    · have hlen := (List.perm_insertionSort pageLE (s :: rest)).length_eq
      intro hcontra
      rw [hcontra] at hlen
      simp at hlen
    · intro t ht
      exact hbound t ((List.perm_insertionSort pageLE (s :: rest)).mem_iff.mp ht)

/-- C1 (amended): for chapter starts sorted by ascending page index — as the
outline strategy always produces, and as `build_chapter_ranges` enforces by
re-sorting — the built ranges are contiguous, non-overlapping, order-preserving
blocks that cover every page from the first start's page to the last document
page, and no page before the first start is covered.  (The scan strategy orders
its output by chapter number, not page, and feeding that to `build_ranges` can
violate the invariant: see the counterexample.) -/
theorem C1_sorted_ranges_partition (starts : List ChapterStart) (total : Int)
    (hsorted : List.Chain' pageLE starts) (hne : starts ≠ []) :
    List.Chain' (fun r r' => r'.sp = r.ep + 1) (build_ranges starts total)
    ∧ (∀ r ∈ build_ranges starts total, r.sp ≤ r.ep)
    ∧ (∀ p : Int, (starts.head hne).page ≤ p → p ≤ total - 1 →
        coveredBy (build_ranges starts total) p)
    ∧ (∀ p : Int, p < (starts.head hne).page → ¬ coveredBy (build_ranges starts total) p)
    ∧ build_chapter_ranges starts total = build_ranges starts total := by
  obtain ⟨s, rest, rfl⟩ := List.exists_cons_of_ne_nil hne
  refine ⟨build_ranges_chain _ total hsorted,
    fun r hr => build_ranges_wf _ total r hr, ?_, ?_,
    build_chapter_ranges_eq_sorted _ total hsorted⟩
  · intro p h1 h2
    exact build_ranges_covers s rest total hsorted p (by simpa using h1) h2
  · intro p hp
    apply build_ranges_not_covers
    intro t ht
    have hpair := List.pairwise_cons.1 (List.chain'_iff_pairwise.mp hsorted)
    rcases List.mem_cons.1 ht with rfl | ht'
    · simpa using hp
    · have := hpair.1 t ht'
      unfold pageLE at this
      simp only [List.head_cons] at hp
      omega

/-- Scan input for the C1 counterexample: chapter headings appear on pages in an
order that disagrees with the chapter numbering. -/
def pagesC1 : List PageText :=
  [["Chapter 1"], [], [], [], ["Chapter 3"], [], [], [], ["Chapter 2"], []]

/-- C1 is false as stated: on a 10-page document whose scan-based starts are
(1, page 0), (2, page 8), (3, page 4) — the scan sorts by chapter number, not
page — `build_ranges` emits [(1,0,7), (3,4,9)], which overlap on pages 4–7, so
the ranges are not non-overlapping blocks. -/
theorem C1_counterexample :
    detect_chapters_by_scanning pagesC1
      = [⟨1, 0, "Chapter 1"⟩, ⟨2, 8, "Chapter 2"⟩, ⟨3, 4, "Chapter 3"⟩]
    ∧ build_ranges (detect_chapters_by_scanning pagesC1) ((pagesC1.length : Int))
      = [⟨1, 0, 7, "Chapter 1"⟩, ⟨3, 4, 9, "Chapter 3"⟩]
    ∧ coveredBy (build_ranges (detect_chapters_by_scanning pagesC1) ((pagesC1.length : Int))) 4
    ∧ ¬ List.Pairwise (fun r r' : ChRange => r.ep < r'.sp ∨ r'.ep < r.sp)
        (build_ranges (detect_chapters_by_scanning pagesC1) ((pagesC1.length : Int))) := by
  decide

/-- Witness for C1 at a concrete sorted input. -/
theorem C1_witness :
    List.Chain' (fun r r' => r'.sp = r.ep + 1)
      (build_ranges [⟨1, 0, "A"⟩, ⟨2, 2, "B"⟩] 4)
    ∧ coveredBy (build_ranges [⟨1, 0, "A"⟩, ⟨2, 2, "B"⟩] 4) 3
    ∧ ¬ coveredBy (build_ranges [⟨1, 0, "A"⟩, ⟨2, 2, "B"⟩] 4) (-1) := by
  have h := C1_sorted_ranges_partition [⟨1, 0, "A"⟩, ⟨2, 2, "B"⟩] 4
    (by norm_num [List.chain'_cons, pageLE]) (by simp)
  exact ⟨h.1, h.2.2.1 3 (by decide) (by decide), h.2.2.2.1 (-1) (by decide)⟩

/-- C5: range construction sets each end page to one before the next start's
page (or the document's last page for the final entry) and discards exactly the
entries where this end would precede the start — stated via the index-based
formulation `buildRangesIdx` — and on starts at pages [0, 10, 25] of a 30-page
document both builders produce exactly [(ch,0,9), (ch,10,24), (ch,25,29)]. -/
theorem C5_range_construction :
    (∀ (starts : List ChapterStart) (total : Int), List.Chain' pageLE starts →
      build_ranges starts total = buildRangesIdx starts total
      ∧ build_chapter_ranges starts total = buildRangesIdx starts total)
    ∧ ∀ (c1 c2 c3 : Nat) (t1 t2 t3 : String),
      build_ranges [⟨c1, 0, t1⟩, ⟨c2, 10, t2⟩, ⟨c3, 25, t3⟩] 30
        = [⟨c1, 0, 9, t1⟩, ⟨c2, 10, 24, t2⟩, ⟨c3, 25, 29, t3⟩]
      ∧ build_chapter_ranges [⟨c1, 0, t1⟩, ⟨c2, 10, t2⟩, ⟨c3, 25, t3⟩] 30
        = [⟨c1, 0, 9, t1⟩, ⟨c2, 10, 24, t2⟩, ⟨c3, 25, 29, t3⟩] := by
  constructor
  · intro starts total hsorted
    refine ⟨build_ranges_eq_idx starts total, ?_⟩
    rw [build_chapter_ranges_eq_sorted starts total hsorted]
    exact build_ranges_eq_idx starts total
  · intro c1 c2 c3 t1 t2 t3
    have hch : List.Chain' pageLE [⟨c1, 0, t1⟩, ⟨c2, 10, t2⟩, ⟨c3, 25, t3⟩] := by
      norm_num [List.chain'_cons, pageLE]
    have hbr : build_ranges [⟨c1, 0, t1⟩, ⟨c2, 10, t2⟩, ⟨c3, 25, t3⟩] 30
        = [⟨c1, 0, 9, t1⟩, ⟨c2, 10, 24, t2⟩, ⟨c3, 25, 29, t3⟩] := by
      norm_num [build_ranges]
    refine ⟨hbr, ?_⟩
    rw [build_chapter_ranges_eq_sorted _ 30 hch]
    exact hbr

/-- Witness for C5 at concrete inputs. -/
theorem C5_witness :
    build_ranges [⟨1, 0, "a"⟩, ⟨2, 10, "b"⟩, ⟨3, 25, "c"⟩] 30
      = buildRangesIdx [⟨1, 0, "a"⟩, ⟨2, 10, "b"⟩, ⟨3, 25, "c"⟩] 30
    ∧ build_chapter_ranges [⟨4, 0, "x"⟩, ⟨5, 10, "y"⟩, ⟨6, 25, "z"⟩] 30
      = [⟨4, 0, 9, "x"⟩, ⟨5, 10, 24, "y"⟩, ⟨6, 25, 29, "z"⟩] :=
  ⟨(C5_range_construction.1 _ 30 (by norm_num [List.chain'_cons, pageLE])).1,
    (C5_range_construction.2 4 5 6 "x" "y" "z").2⟩

/-- C10: with nonempty starts whose pages all lie in the document, both range
builders return a nonempty list (the entry processed last receives
`end = total_pages - 1 ≥ start` and is retained), so once starts are detected
the fatal exit-3 path of `main` is unreachable. -/
theorem C10_ranges_nonempty :
    (∀ (starts : List ChapterStart) (total : Int), starts ≠ [] →
      (∀ s ∈ starts, s.page ≤ total - 1) →
      build_ranges starts total ≠ [] ∧ build_chapter_ranges starts total ≠ [])
    ∧ ∀ (doc : Document) (cfg : Config), pipelineStarts doc ≠ [] →
      (∀ s ∈ pipelineStarts doc, s.page ≤ (doc.pages.length : Int) - 1) →
      runExtract doc cfg ≠ Except.error 3
      ∧ ∃ outs, runExtract doc cfg = Except.ok outs := by
  constructor
  · intro starts total hne hbound
    exact ⟨build_ranges_ne_nil starts total hne hbound,
      build_chapter_ranges_ne_nil starts total hne hbound⟩
  · intro doc cfg hne hbound
    have h1 : (pipelineStarts doc).isEmpty = false := by
      cases h : pipelineStarts doc with
      | nil => exact absurd h hne
      | cons a l => simp
    have h2 : build_chapter_ranges (pipelineStarts doc) (doc.pages.length : Int) ≠ [] :=
      build_chapter_ranges_ne_nil _ _ hne hbound
    have h2' : (build_chapter_ranges (pipelineStarts doc) (doc.pages.length : Int)).isEmpty
        = false := by
      cases h : build_chapter_ranges (pipelineStarts doc) (doc.pages.length : Int) with
      | nil => exact absurd h h2
      | cons a l => simp
    refine ⟨?_, ?_⟩ <;> simp [runExtract, h1, h2']

/-- Witness for C10 at a concrete input. -/
theorem C10_witness :
    build_ranges [⟨1, 0, "A"⟩] 1 ≠ [] ∧ build_chapter_ranges [⟨1, 0, "A"⟩] 1 ≠ [] :=
  C10_ranges_nonempty.1 [⟨1, 0, "A"⟩] 1 (by simp) (by decide)

/-! ### Exercise boundary detection -/

/-- The forward heading scan returns the first scanned page with a heading. -/
theorem findHeadingFwd_eq_some (pages : List PageText) (kws : List String)
    (fuel : Nat) (i i₀ : Int)
    (hlo : i ≤ i₀) (hhi : i₀ < i + fuel)
    (hhd : page_has_heading (loadPage pages i₀) kws 25 = true)
    (hfirst : ∀ j, i ≤ j → j < i₀ → page_has_heading (loadPage pages j) kws 25 = false) :
    findHeadingFwd pages kws fuel i = some i₀ := by
  induction fuel generalizing i with
  | zero => omega
  | succ fuel ih =>
    rw [findHeadingFwd]
    by_cases h : page_has_heading (loadPage pages i) kws 25 = true
    · have : i₀ = i := by
        by_contra hne
        have hlt : i < i₀ := by omega
        rw [hfirst i le_rfl hlt] at h
        exact absurd h (by simp)
      rw [if_pos h, this]
    · rw [if_neg h]
      have hne : i₀ ≠ i := fun heq => h (heq ▸ hhd)
      exact ih (i + 1) (by omega) (by omega)
        (fun j hj hj' => hfirst j (by omega) hj')

/-- If no scanned page has a heading, the forward scan finds nothing. -/
theorem findHeadingFwd_eq_none (pages : List PageText) (kws : List String)
    (fuel : Nat) (i : Int)
    (hnone : ∀ j, i ≤ j → j < i + fuel → page_has_heading (loadPage pages j) kws 25 = false) :
    findHeadingFwd pages kws fuel i = none := by
  induction fuel generalizing i with
  | zero => rfl
  | succ fuel ih =>
    rw [findHeadingFwd]
    rw [hnone i le_rfl (by omega)]
    simp only [Bool.false_eq_true, if_false]
    exact ih (i + 1) fun j hj hj' => hnone j (by omega) (by omega)

/-- When no page of `[start, e]` has a heading, the preceding-page preference of
the backward numbering scan can never fire, so it agrees with the plain scan. -/
theorem findNumBwd_eq_plain (pages : List PageText) (ch : Nat) (minCount : Nat)
    (kws : List String) (start e : Int) (fuel : Nat) (i : Int)
    (hie : i ≤ e)
    (hnohd : ∀ j, start ≤ j → j ≤ e → page_has_heading (loadPage pages j) kws 25 = false) :
    findNumBwd pages ch minCount kws start fuel i
      = findNumBwdPlain pages ch minCount fuel i := by
  induction fuel generalizing i with
  | zero => rfl
  | succ fuel ih =>
    rw [findNumBwd, findNumBwdPlain]
    by_cases hq : minCount ≤ countNumLines (loadPage pages i) ch
    · rw [if_pos hq, if_pos hq]
      by_cases hp : start ≤ i - 1
      · rw [if_pos hp, hnohd (i - 1) hp (by omega)]
        simp
      · rw [if_neg hp]
    · rw [if_neg hq, if_neg hq]
      exact ih (i - 1) (by omega)

/-- The plain backward scan returns the latest scanned page whose numbering
count reaches the threshold. -/
theorem findNumBwdPlain_eq_some (pages : List PageText) (ch : Nat) (minCount : Nat)
    (fuel : Nat) (i i₀ : Int)
    (hlo : i₀ ≤ i) (hhi : i < i₀ + fuel)
    (hq : minCount ≤ countNumLines (loadPage pages i₀) ch)
    (hlast : ∀ j, i₀ < j → j ≤ i → countNumLines (loadPage pages j) ch < minCount) :
    findNumBwdPlain pages ch minCount fuel i = some i₀ := by
  induction fuel generalizing i with
  | zero => omega
  | succ fuel ih =>
    rw [findNumBwdPlain]
    by_cases h : minCount ≤ countNumLines (loadPage pages i) ch
    · have : i₀ = i := by
        by_contra hne
        have hlt : i₀ < i := by omega
        have := hlast i hlt le_rfl
        omega
      rw [if_pos h, this]
    · rw [if_neg h]
      have hne : i₀ ≠ i := by
        intro heq; rw [heq] at hq; exact h hq
      exact ih (i - 1) (by omega) (by omega)
        (fun j hj hj' => hlast j hj (by omega))

/-- Whatever the plain backward scan returns reaches the threshold. -/
theorem findNumBwdPlain_qualifies (pages : List PageText) (ch : Nat) (minCount : Nat)
    (fuel : Nat) (i j : Int)
    (h : findNumBwdPlain pages ch minCount fuel i = some j) :
    minCount ≤ countNumLines (loadPage pages j) ch := by
  induction fuel generalizing i with
  | zero => exact absurd h (by simp [findNumBwdPlain])
  | succ fuel ih =>
    rw [findNumBwdPlain] at h
    by_cases hq : minCount ≤ countNumLines (loadPage pages i) ch
    · rw [if_pos hq] at h
      cases h
      exact hq
    · rw [if_neg hq] at h
      exact ih (i - 1) h

/-- An index inside the forward-scan window `[sp, sp + fuel)` is at most `ep`. -/
theorem toNat_fuel_le {sp ep j : Int} (hsp : sp ≤ j)
    (h : j < sp + ((ep + 1 - sp).toNat : Int)) : j ≤ ep := by
  omega

/-- C4: if some page of the chapter range carries a keyword heading among its
leading 25 stripped lines, `detect_exercises_start` returns the first such page
of the forward scan, for every numbering-density threshold — the density tier
is never consulted. -/
theorem C4_heading_tier_wins (pages : List PageText) (kws : List String)
    (r : ChRange) (i₀ : Int)
    (h1 : r.sp ≤ i₀) (h2 : i₀ ≤ r.ep)
    (h3 : page_has_heading (loadPage pages i₀) kws 25 = true)
    (h4 : ∀ j, r.sp ≤ j → j < i₀ → page_has_heading (loadPage pages j) kws 25 = false) :
    ∀ minCount : Nat, detect_exercises_start pages r kws minCount = some i₀ := by
  intro minCount
  unfold detect_exercises_start
  have hf : findHeadingFwd pages kws ((r.ep + 1 - r.sp).toNat) r.sp = some i₀ :=
    findHeadingFwd_eq_some pages kws _ r.sp i₀ h1 (by omega) h3 h4
  rw [hf]

/-- Witness for C4: page 1 holds the heading "Problems 3"; the scan starting at
page 0 returns it. -/
theorem C4_witness :
    detect_exercises_start [["intro text"], ["Problems 3"], ["Exercises"]]
      ⟨3, 0, 2, "t"⟩ DEFAULT_KEYWORDS 2 = some 1 := by
  have h := C4_heading_tier_wins [["intro text"], ["Problems 3"], ["Exercises"]]
    DEFAULT_KEYWORDS ⟨3, 0, 2, "t"⟩ 1 (by decide) (by decide) (by decide)
    (fun j hj hj' => by
      have hj0 : (0 : Int) ≤ j := hj
      have : j = 0 := by omega
      subst this
      decide)
  exact h 2

/-- C9 (implicit claim): once the heading tier has found nothing — no page of
`[sp, ep]` has a keyword heading — the preceding-page preference branch of the
numbering tier is unreachable: `detect_exercises_start` coincides with the
variant that always returns the qualifying page itself, and any page it returns
reaches the numbering threshold on its own. -/
theorem C9_prev_branch_unreachable (pages : List PageText) (kws : List String)
    (r : ChRange) (minCount : Nat)
    (hnohd : ∀ j, r.sp ≤ j → j ≤ r.ep →
      page_has_heading (loadPage pages j) kws 25 = false) :
    detect_exercises_start pages r kws minCount = detectNoPrevVariant pages r kws minCount
    ∧ ∀ j, detect_exercises_start pages r kws minCount = some j →
        minCount ≤ countNumLines (loadPage pages j) r.ch := by
  have hnone : findHeadingFwd pages kws ((r.ep + 1 - r.sp).toNat) r.sp = none := by
    apply findHeadingFwd_eq_none
    intro j hj hj'
    exact hnohd j hj (toNat_fuel_le hj hj')
  have heq : detect_exercises_start pages r kws minCount
      = detectNoPrevVariant pages r kws minCount := by
    unfold detect_exercises_start detectNoPrevVariant
    rw [hnone]
    by_cases hle : r.sp ≤ r.ep
    · exact findNumBwd_eq_plain pages r.ch minCount kws r.sp r.ep _ r.ep le_rfl hnohd
    · have hz : (r.ep + 1 - r.sp).toNat = 0 := by omega
      rw [hz]
      rfl
  refine ⟨heq, ?_⟩
  intro j hj
  rw [heq] at hj
  unfold detectNoPrevVariant at hj
  rw [hnone] at hj
  exact findNumBwdPlain_qualifies pages r.ch minCount _ r.ep j hj

/-- Witness for C9: a chapter range with no heading anywhere; the two variants
agree on it. -/
theorem C9_witness :
    detect_exercises_start [["7.1", "7.2"], ["closing remarks"]]
      ⟨7, 0, 1, "t"⟩ DEFAULT_KEYWORDS 2
      = detectNoPrevVariant [["7.1", "7.2"], ["closing remarks"]]
          ⟨7, 0, 1, "t"⟩ DEFAULT_KEYWORDS 2 := by
  have h := C9_prev_branch_unreachable [["7.1", "7.2"], ["closing remarks"]]
    DEFAULT_KEYWORDS ⟨7, 0, 1, "t"⟩ 2
    (fun j hj hj' => by
      have hj0 : (0 : Int) ≤ j := hj
      have hj1 : j ≤ 1 := hj'
      have : j = 0 ∨ j = 1 := by omega
      rcases this with rfl | rfl <;> decide)
  exact h.1

/-- C3 is false as stated: chapter 7 spans pages 1–2; no page in the range has
a keyword heading; page 1 is the last (and only) page with ≥ 2 lines matching
`7.<digits>`, and the page immediately before it — page 0, the previous
chapter's last page — has the keyword heading "Exercises".  The claim says page
0 is returned; the code never checks a page outside the range and returns
page 1. -/
theorem C3_counterexample :
    page_has_heading (loadPage [["Exercises"], ["7.1", "7.2"], ["blah"]] 0)
      DEFAULT_KEYWORDS 25 = true
    ∧ page_has_heading (loadPage [["Exercises"], ["7.1", "7.2"], ["blah"]] 1)
        DEFAULT_KEYWORDS 25 = false
    ∧ page_has_heading (loadPage [["Exercises"], ["7.1", "7.2"], ["blah"]] 2)
        DEFAULT_KEYWORDS 25 = false
    ∧ 2 ≤ countNumLines (loadPage [["Exercises"], ["7.1", "7.2"], ["blah"]] 1) 7
    ∧ countNumLines (loadPage [["Exercises"], ["7.1", "7.2"], ["blah"]] 2) 7 < 2
    ∧ detect_exercises_start [["Exercises"], ["7.1", "7.2"], ["blah"]]
        ⟨7, 1, 2, "t"⟩ DEFAULT_KEYWORDS 2 = some 1 := by
  decide

/-- C3 (amended): in a chapter range none of whose pages has a keyword heading,
if some page reaches the numbering-density threshold then detection returns the
last such qualifying page of the backward scan; the preceding-page preference
only applies to a preceding page inside the range, which — having no heading —
never triggers it, so the qualifying page itself is always returned. -/
theorem C3_numbering_tier_last_qualifier (pages : List PageText) (kws : List String)
    (r : ChRange) (minCount : Nat) (i₀ : Int)
    (hnohd : ∀ j, r.sp ≤ j → j ≤ r.ep →
      page_has_heading (loadPage pages j) kws 25 = false)
    (h1 : r.sp ≤ i₀) (h2 : i₀ ≤ r.ep)
    (hq : minCount ≤ countNumLines (loadPage pages i₀) r.ch)
    (hlast : ∀ j, i₀ < j → j ≤ r.ep → countNumLines (loadPage pages j) r.ch < minCount) :
    detect_exercises_start pages r kws minCount = some i₀ := by
  unfold detect_exercises_start
  have hnone : findHeadingFwd pages kws ((r.ep + 1 - r.sp).toNat) r.sp = none := by
    apply findHeadingFwd_eq_none
    intro j hj hj'
    exact hnohd j hj (toNat_fuel_le hj hj')
  rw [hnone]
  rw [findNumBwd_eq_plain pages r.ch minCount kws r.sp r.ep _ r.ep le_rfl hnohd]
  exact findNumBwdPlain_eq_some pages r.ch minCount _ r.ep i₀ h2 (by omega) hq hlast

/-- Witness for C3's amended statement at a concrete input. -/
theorem C3_witness :
    detect_exercises_start [["chapter eight intro"], ["8.1", "8.2"], ["closing"]]
      ⟨8, 0, 2, "t"⟩ DEFAULT_KEYWORDS 2 = some 1 := by
  apply C3_numbering_tier_last_qualifier
  · intro j hj hj'
    have hj0 : (0 : Int) ≤ j := hj
    have hj2 : j ≤ 2 := hj'
    have : j = 0 ∨ j = 1 ∨ j = 2 := by omega
    rcases this with rfl | rfl | rfl <;> decide
  · decide
  · decide
  · decide
  · intro j hj hj'
    have hj1 : (1 : Int) < j := hj
    have hj2 : j ≤ 2 := hj'
    have : j = 2 := by omega
    subst this
    decide

/-! ### Outline-based chapter start detection -/

/-- The top-level (level 1) outline entries, in outline order. -/
def levelOneEntries (toc : List TocEntry) : List TocEntry :=
  toc.filter fun e => e.level == 1

/-- When every entry parses, `filterMap` over the parsed numbers is a `map`. -/
theorem filterMap_parsedNum_eq_map (l : List TocEntry)
    (h : ∀ e ∈ l, (parsedNum e).isSome) :
    l.filterMap parsedNum = l.map fun e => (parsedNum e).getD 0 := by
  induction l with
  | nil => rfl
  | cons e rest ih =>
    obtain ⟨n, hn⟩ := Option.isSome_iff_exists.mp (h e (List.mem_cons_self ..))
    rw [List.filterMap_cons, List.map_cons, hn]
    simp only [Option.getD_some, hn]
    rw [ih fun t ht => h t (List.mem_cons_of_mem _ ht)]

/-- When all level-1 titles parse to pairwise-distinct numbers none of which
was seen before, the outline loop appends exactly one chapter start per
level-1 entry, in outline order. -/
theorem tocAux_eq_map (toc : List TocEntry) (chapters : List ChapterStart) (seen : List Nat)
    (hparse : ∀ e ∈ levelOneEntries toc, (parsedNum e).isSome)
    (hnodup : ((levelOneEntries toc).filterMap parsedNum).Nodup)
    (hseen : ∀ n ∈ (levelOneEntries toc).filterMap parsedNum, n ∉ seen) :
    tocAux toc chapters seen
      = chapters ++ (levelOneEntries toc).map
          fun e => ⟨(parsedNum e).getD 0, e.page1 - 1, pyStrip e.title⟩ := by
  induction toc generalizing chapters seen with
  | nil => simp [tocAux, levelOneEntries]
  | cons e rest ih =>
    by_cases hl : e.level = 1
    · have hlvl : levelOneEntries (e :: rest) = e :: levelOneEntries rest := by
        simp [levelOneEntries, List.filter_cons, hl]
      rw [hlvl] at hparse hnodup hseen
      obtain ⟨n, hn⟩ := Option.isSome_iff_exists.mp (hparse e (List.mem_cons_self ..))
      have hfm : (e :: levelOneEntries rest).filterMap parsedNum
          = n :: (levelOneEntries rest).filterMap parsedNum := by
        rw [List.filterMap_cons, hn]
      rw [hfm] at hnodup hseen
      have hn_notin : n ∉ seen := hseen n (List.mem_cons_self ..)
      have hstep : tocAux (e :: rest) chapters seen
          = tocAux rest (chapters ++ [⟨n, e.page1 - 1, pyStrip e.title⟩]) (n :: seen) := by
        simp [tocAux, hl, hn, hn_notin]
      rw [hstep, hlvl]
      have hrec := ih (chapters ++ [⟨n, e.page1 - 1, pyStrip e.title⟩]) (n :: seen)
        (fun t ht => hparse t (List.mem_cons_of_mem _ ht))
        (List.nodup_cons.mp hnodup).2
        (fun m hm => by
          have hmseen : m ∉ seen := hseen m (List.mem_cons_of_mem _ hm)
          have hmn : m ≠ n := fun heq => (List.nodup_cons.mp hnodup).1 (heq ▸ hm)
          simp [hmseen, hmn])
      rw [hrec, List.map_cons, List.append_assoc, List.singleton_append, hn]
      simp
    · have hlvl : levelOneEntries (e :: rest) = levelOneEntries rest := by
        simp [levelOneEntries, List.filter_cons, hl]
      rw [hlvl] at hparse hnodup hseen
      have hstep : tocAux (e :: rest) chapters seen = tocAux rest chapters seen := by
        simp [tocAux, hl]
      rw [hstep, hlvl]
      exact ih chapters seen hparse hnodup hseen

/-- C6: when every level-1 outline title parses to a chapter number and those
numbers are pairwise distinct, the outline detector returns exactly one start
per level-1 entry, sorted by ascending page index, whose chapter numbers are
exactly the declared ones (both tools' outline detectors agree). -/
theorem C6_outline_detection (toc : List TocEntry)
    (hparse : ∀ e ∈ levelOneEntries toc, (parsedNum e).isSome)
    (hnodup : ((levelOneEntries toc).filterMap parsedNum).Nodup) :
    (get_toc_chapter_starts toc).length = (levelOneEntries toc).length
    ∧ List.Sorted pageLE (get_toc_chapter_starts toc)
    ∧ List.Perm ((get_toc_chapter_starts toc).map ChapterStart.ch)
        ((levelOneEntries toc).filterMap parsedNum)
    ∧ detect_chapters_by_toc toc = get_toc_chapter_starts toc := by
  cases toc with
  | nil =>
    exact ⟨rfl, List.sorted_nil, List.Perm.refl _, rfl⟩
  | cons e rest =>
    have hget : get_toc_chapter_starts (e :: rest)
        = List.insertionSort pageLE (tocAux (e :: rest) [] []) := by
      simp [get_toc_chapter_starts]
    have haux := tocAux_eq_map (e :: rest) [] [] hparse hnodup (by simp)
    rw [List.nil_append] at haux
    refine ⟨?_, ?_, ?_, ?_⟩
    · rw [hget, haux]
      rw [(List.perm_insertionSort pageLE _).length_eq]
      exact List.length_map ..
    · rw [hget]
      exact List.sorted_insertionSort pageLE _
    · rw [hget, haux]
      have hperm := ((List.perm_insertionSort pageLE
        ((levelOneEntries (e :: rest)).map
          fun t => (⟨(parsedNum t).getD 0, t.page1 - 1, pyStrip t.title⟩ : ChapterStart)))).map
        ChapterStart.ch
      refine hperm.trans ?_
      rw [List.map_map]
      rw [filterMap_parsedNum_eq_map _ hparse]
      exact List.Perm.refl _
    · rw [hget]
      rfl

/-- Witness for C6 at a concrete two-entry outline (titles "Chapter 2" and
"Chapter 1", pages 5 and 9). -/
theorem C6_witness :
    (get_toc_chapter_starts [⟨1, "Chapter 2", 5⟩, ⟨1, "Chapter 1", 9⟩]).length
      = (levelOneEntries [⟨1, "Chapter 2", 5⟩, ⟨1, "Chapter 1", 9⟩]).length
    ∧ List.Sorted pageLE (get_toc_chapter_starts [⟨1, "Chapter 2", 5⟩, ⟨1, "Chapter 1", 9⟩]) := by
  have h := C6_outline_detection [⟨1, "Chapter 2", 5⟩, ⟨1, "Chapter 1", 9⟩]
    (by decide) (by decide)
  exact ⟨h.1, h.2.1⟩

/-- C2 (amended): among outline entries resolving to the same chapter number,
the one appearing first in outline order is retained and later duplicates are
discarded; this is the lowest-page entry exactly when the duplicate entries
appear in ascending page order, but not in general (see the counterexample). -/
theorem C2_first_in_outline_order (e1 e2 : TocEntry) (n : Nat)
    (h1 : e1.level = 1) (h2 : e2.level = 1)
    (hp1 : parsedNum e1 = some n) (hp2 : parsedNum e2 = some n) :
    get_toc_chapter_starts [e1, e2] = [⟨n, e1.page1 - 1, pyStrip e1.title⟩]
    ∧ detect_chapters_by_toc [e1, e2] = [⟨n, e1.page1 - 1, pyStrip e1.title⟩] := by
  have haux : tocAux [e1, e2] [] [] = [⟨n, e1.page1 - 1, pyStrip e1.title⟩] := by
    simp [tocAux, h1, h2, hp1, hp2]
  constructor
  · simp [get_toc_chapter_starts, haux]
  · simp [detect_chapters_by_toc, haux]

/-- C2 is false as stated: an outline whose two level-1 entries both resolve to
chapter 5 but appear in descending page order (pages 21 and 4, i.e. page
indices 20 and 3) retains the outline-first entry at page index 19 = 20 - 1,
not the lowest-page entry at page index 2. -/
theorem C2_counterexample :
    parsedNum ⟨1, "Chapter 5", 20⟩ = some 5
    ∧ parsedNum ⟨1, "Chapter 5", 3⟩ = some 5
    ∧ get_toc_chapter_starts [⟨1, "Chapter 5", 20⟩, ⟨1, "Chapter 5", 3⟩]
        = [⟨5, 19, "Chapter 5"⟩]
    ∧ (⟨5, 2, "Chapter 5"⟩ : ChapterStart) ∉
        get_toc_chapter_starts [⟨1, "Chapter 5", 20⟩, ⟨1, "Chapter 5", 3⟩] := by
  decide

/-- Witness for C2's amended statement: two entries resolving to chapter 4 via
different patterns; the outline-first entry (page index 1) is retained. -/
theorem C2_witness :
    get_toc_chapter_starts [⟨1, "Chapter 4", 2⟩, ⟨1, "4 More Things", 7⟩]
      = [⟨4, 1, "Chapter 4"⟩] := by
  have h := (C2_first_in_outline_order ⟨1, "Chapter 4", 2⟩ ⟨1, "4 More Things", 7⟩ 4
    rfl rfl (by decide) (by decide)).1
  exact h.trans (by decide)

/-! ### The extraction driver: skipping failed chapters, determinism -/

/-- A range with no detected exercise boundary contributes nothing to the
output, and removing it from the worklist changes nothing else. -/
theorem processRanges_skip (pages : List PageText) (kws : List String) (minCount : Nat)
    (l1 l2 : List ChRange) (r : ChRange)
    (hnone : detect_exercises_start pages r kws minCount = none) :
    processRanges pages kws minCount (l1 ++ r :: l2)
      = processRanges pages kws minCount (l1 ++ l2) := by
  induction l1 with
  | nil => simp [processRanges, hnone]
  | cons a l1' ih =>
    simp only [List.cons_append, processRanges, List.append_eq]
    cases detect_exercises_start pages a kws minCount <;> rw [ih]

/-- Every range of the worklist with a detected boundary contributes its output
record. -/
theorem processRanges_mem (pages : List PageText) (kws : List String) (minCount : Nat)
    (rs : List ChRange) (r : ChRange) (ex : Int)
    (hmem : r ∈ rs)
    (hdet : detect_exercises_start pages r kws minCount = some ex) :
    (⟨r.ch, r.title, ex, r.ep⟩ : Out) ∈ processRanges pages kws minCount rs := by
  induction rs with
  | nil => simp at hmem
  | cons a rest ih =>
    rcases List.mem_cons.1 hmem with rfl | hmem'
    · simp [processRanges, hdet]
    · simp only [processRanges]
      cases detect_exercises_start pages a kws minCount with
      | none => exact ih hmem'
      | some e => exact List.mem_cons_of_mem _ (ih hmem')

/-- C7: when one constructed chapter range has no detectable exercise boundary,
the run still succeeds — the per-chapter failure never produces a nonzero exit
— that chapter contributes no output file, and every other chapter range whose
boundary is detected still contributes its output record. -/
theorem C7_failed_chapter_skipped (doc : Document) (cfg : Config)
    (l1 l2 : List ChRange) (r : ChRange)
    (hnone : detect_exercises_start doc.pages r cfg.keywords cfg.minNumCount = none)
    (hne : pipelineStarts doc ≠ [])
    (hranges : build_chapter_ranges (pipelineStarts doc) ((doc.pages.length : Int))
      = l1 ++ r :: l2) :
    runExtract doc cfg
      = Except.ok (processRanges doc.pages cfg.keywords cfg.minNumCount (l1 ++ l2))
    ∧ ∀ r' ex, r' ∈ l1 ++ l2 →
        detect_exercises_start doc.pages r' cfg.keywords cfg.minNumCount = some ex →
        (⟨r'.ch, r'.title, ex, r'.ep⟩ : Out) ∈
          processRanges doc.pages cfg.keywords cfg.minNumCount (l1 ++ l2) := by
  have hb1 : (pipelineStarts doc).isEmpty = false := by
    cases h : pipelineStarts doc with
    | nil => exact absurd h hne
    | cons a l => rfl
  have hb2 : (build_chapter_ranges (pipelineStarts doc) ((doc.pages.length : Int))).isEmpty
      = false := by
    rw [hranges]
    cases l1 <;> rfl
  constructor
  · have hrun : runExtract doc cfg = Except.ok (processRanges doc.pages cfg.keywords
        cfg.minNumCount (build_chapter_ranges (pipelineStarts doc)
          ((doc.pages.length : Int)))) := by
      simp [runExtract, hb1, hb2]
    rw [hrun, hranges, processRanges_skip doc.pages cfg.keywords cfg.minNumCount l1 l2 r hnone]
  · intro r' ex hmem hdet
    exact processRanges_mem doc.pages cfg.keywords cfg.minNumCount (l1 ++ l2) r' ex hmem hdet

/-- Witness for C7: chapter 1 (pages 0–1) has a detected boundary, chapter 2
(pages 2–3) has none; the run succeeds and emits exactly chapter 1's file. -/
theorem C7_witness :
    runExtract ⟨[["Chapter 1"], ["Exercises", "1.1", "1.2"], ["Chapter 2"], ["nothing here"]], []⟩
        ⟨DEFAULT_KEYWORDS, 2⟩
      = Except.ok [⟨1, "Chapter 1", 1, 1⟩] := by
  have h := C7_failed_chapter_skipped
    ⟨[["Chapter 1"], ["Exercises", "1.1", "1.2"], ["Chapter 2"], ["nothing here"]], []⟩
    ⟨DEFAULT_KEYWORDS, 2⟩
    [⟨1, 0, 1, "Chapter 1"⟩] [] ⟨2, 2, 3, "Chapter 2"⟩
    (by decide) (by decide) (by decide)
  exact h.1.trans (congrArg Except.ok (by decide))

/-- The functional driver realizes the run relation. -/
theorem run_runExtract (doc : Document) (cfg : Config) : Run doc cfg (runExtract doc cfg) := by
  cases hs : pipelineStarts doc with
  | nil =>
    have hrun : runExtract doc cfg = Except.error 2 := by
      simp [runExtract, hs]
    rw [hrun]
    exact Run.noStarts hs
  | cons a l =>
    have hne : pipelineStarts doc ≠ [] := by rw [hs]; simp
    have hb1 : (pipelineStarts doc).isEmpty = false := by rw [hs]; rfl
    cases hr0 : build_chapter_ranges (pipelineStarts doc) ((doc.pages.length : Int)) with
    | nil =>
      have hrun : runExtract doc cfg = Except.error 3 := by
        simp [runExtract, hb1, hr0]
      rw [hrun]
      exact Run.noRanges hne hr0
    | cons b m =>
      have hb2 : (build_chapter_ranges (pipelineStarts doc)
          ((doc.pages.length : Int))).isEmpty = false := by rw [hr0]; rfl
      have hrun : runExtract doc cfg = Except.ok (processRanges doc.pages cfg.keywords
          cfg.minNumCount (build_chapter_ranges (pipelineStarts doc)
            ((doc.pages.length : Int)))) := by
        simp [runExtract, hb1, hb2]
      rw [hrun]
      exact Run.success hne (by rw [hr0]; simp)

/-- C8: the detection pipeline is a deterministic function of the input
document and the configuration — any two runs over the same unmodified input
produce the same outcome, hence identical chapter ranges, identical exercise
start indices, and identical output filenames (via `outName`/`slugify`). -/
theorem C8_detection_deterministic (doc : Document) (cfg : Config)
    (r₁ r₂ : Except Nat (List Out)) (h₁ : Run doc cfg r₁) (h₂ : Run doc cfg r₂) :
    r₁ = r₂ ∧ ∀ stem : String,
      r₁.map (List.map (outName stem)) = r₂.map (List.map (outName stem)) := by
  have heq : r₁ = r₂ := by
    cases h₁ with
    | noStarts ha =>
      cases h₂ with
      | noStarts hb => rfl
      | noRanges hb _ => exact absurd ha hb
      | success hb _ => exact absurd ha hb
    | noRanges ha ha' =>
      cases h₂ with
      | noStarts hb => exact absurd hb ha
      | noRanges _ _ => rfl
      | success _ hb' => exact absurd ha' hb'
    | success ha ha' =>
      cases h₂ with
      | noStarts hb => exact absurd hb ha
      | noRanges _ hb' => exact absurd hb' ha'
      | success _ _ => rfl
  exact ⟨heq, fun stem => by rw [heq]⟩

/-- Witness for C8: a two-chapter document; a run built by the relation's
success case and the run computed by the driver agree. -/
theorem C8_witness :
    runExtract ⟨[["Chapter 1"], ["Exercises"], ["Chapter 2"], ["Exercises"]], []⟩
        ⟨DEFAULT_KEYWORDS, 2⟩
      = Except.ok [⟨1, "Chapter 1", 1, 1⟩, ⟨2, "Chapter 2", 3, 3⟩] := by
  have h := C8_detection_deterministic
    ⟨[["Chapter 1"], ["Exercises"], ["Chapter 2"], ["Exercises"]], []⟩
    ⟨DEFAULT_KEYWORDS, 2⟩ _ _
    (run_runExtract ⟨[["Chapter 1"], ["Exercises"], ["Chapter 2"], ["Exercises"]], []⟩
      ⟨DEFAULT_KEYWORDS, 2⟩)
    (Run.success (by decide) (by decide))
  exact h.1.trans (congrArg Except.ok (by decide))

end Apostal
